import Mathlib

/-!
Verification of the sequential word-alignment engine of the
speech-pronunciation trainer (src/script.js) against its specification.
The engine `matchWords`, the derived chip statuses, and the session-level
handlers (`applyWordHighlights`, `skipCurrentWord`, `addTextToView`,
`clearTextView`, the debounced recognition pipeline) are embedded as pure
Lean functions over explicit state.
-/

namespace Speech

/-- Status of a recognized token, the string constants of script.js
(lines 166, 194, 204, 211). -/
inductive MatchStatus where
  | match'
  | mismatch
  | extra
  deriving DecidableEq, Repr

/-- One entry of `recognizedMatched`: the object
`\x7b targetIndex, status \x7d` built in matchWords. -/
structure RecMatch where
  targetIndex : Option Nat
  status : MatchStatus
  deriving DecidableEq, Repr

/-- The alignment result returned by matchWords (script.js line 223).
`recognizedMatched` entries are Options because the JS array is
pre-filled with null (line 161). -/
structure AlignResult where
  targetMatched : List Bool
  recognizedMatched : List (Option RecMatch)
  furthestMatch : Int
  deriving DecidableEq, Repr

/-- The mutable state of the main loop of matchWords
(targetMatched, recognizedMatched accumulated in order, furthestMatch,
currentTargetIndex). -/
structure LoopState where
  tm : List Bool
  rm : List (Option RecMatch)
  f : Int
  c : Nat
  deriving DecidableEq, Repr

/-- `isCompleted` of script.js line 181: a target index is completed if
the user skipped it or it was matched in this pass. -/
def isCompleted (sk : List Nat) (tm : List Bool) (index : Nat) : Bool :=
  decide (index ∈ sk) || tm.getD index false

/-- The inner while loop of matchWords (lines 187-190): advance the
cursor past completed target indices, recording furthestMatch. -/
def advanceCursor (n : Nat) (sk : List Nat) (tm : List Bool) (c : Nat) (f : Int) : Nat × Int :=
  if h : c < n ∧ isCompleted sk tm c = true then
    advanceCursor n sk tm (c + 1) (max f (c : Int))
  else
    (c, f)
termination_by n - c
decreasing_by omega

/-- One iteration of the main for loop of matchWords (lines 185-213):
advance past completed targets, then classify the spoken word as
extra, match, or mismatch. -/
def matchStep (t : List String) (sk : List Nat) (st : LoopState) (spoken : String) : LoopState :=
  let n := t.length
  let p := advanceCursor n sk st.tm st.c st.f
  let c := p.1
  let f := p.2
  if n ≤ c then
    { st with rm := st.rm ++ [some ⟨none, MatchStatus.extra⟩], f := f, c := c }
  else
    let expected := t.getD c ""
    if spoken = expected then
      { tm := st.tm.set c true
        rm := st.rm ++ [some ⟨some c, MatchStatus.match'⟩]
        f := max f (c : Int)
        c := c + 1 }
    else
      { st with rm := st.rm ++ [some ⟨some c, MatchStatus.mismatch⟩], f := f, c := c }

/-- The final fold over the skip set (lines 217-221): furthestMatch also
covers skipped indices inside [0, n). Skip indices are naturals, so the
JS guard index >= 0 is automatic. -/
def skipFold (n : Nat) (f : Int) (sk : List Nat) : Int :=
  sk.foldl (fun acc k => if k < n then max acc (k : Int) else acc) f

/-- matchWords of script.js lines 156-224. The JS Set of skipped indices
is modelled as a list; only membership and the max fold are ever used,
so duplicates and order are irrelevant. -/
def matchWords (targetWords recognizedWords : List String) (skippedIndices : List Nat) : AlignResult :=
  let n := targetWords.length
  if n = 0 then
    { targetMatched := []
      recognizedMatched := recognizedWords.map (fun _ => some ⟨none, MatchStatus.extra⟩)
      furthestMatch := -1 }
  else if recognizedWords.length = 0 then
    { targetMatched := List.replicate n false
      recognizedMatched := []
      furthestMatch := -1 }
  else
    let st := recognizedWords.foldl (matchStep targetWords skippedIndices)
      { tm := List.replicate n false, rm := [], f := -1, c := 0 }
    { targetMatched := st.tm
      recognizedMatched := st.rm
      furthestMatch := skipFold n st.f skippedIndices }

/-- The per-chip display status derived in applyWordHighlights
(script.js lines 250-264). -/
inductive ChipStatus where
  | matched
  | skippedMismatch
  | current
  | pending
  deriving DecidableEq, Repr

/-- The class chosen for target chip `index` in applyWordHighlights
lines 254-263: word-match, word-mismatch (skipped-mismatch of the spec),
word-current, or neutral. `recNonempty` is recognizedWords.length > 0. -/
def chipStatus (res : AlignResult) (recNonempty : Bool) (index : Nat) : ChipStatus :=
  if res.targetMatched.getD index false then ChipStatus.matched
  else if (index : Int) ≤ res.furthestMatch ∧ recNonempty = true then ChipStatus.skippedMismatch
  else if (index : Int) = res.furthestMatch + 1 then ChipStatus.current
  else ChipStatus.pending

/-- The module-level mutable session state of script.js (lines 31-63):
targetWords, displayWords (original paired with normalized),
currentMatchIndex, rawTranscript, skippedIndices, lastRecognizedWords,
and the pending debounced recognition snapshot (pendingRecognition plus
the active debounce timer, folded into one Option). -/
structure AppState where
  targetWords : List String
  displayWords : List (String × String)
  currentMatchIndex : Int
  rawTranscript : String
  skippedIndices : List Nat
  lastRecognizedWords : List String
  pendingRecognition : Option (List String)
  deriving DecidableEq, Repr

/-- applyWordHighlights (script.js lines 229-271) restricted to the
session state it mutates: guards on an empty target list, runs
matchWords, caches the snapshot in lastRecognizedWords (line 240), and
stores furthestMatch in currentMatchIndex (line 243). The DOM writes
(chip classes, recognized display, summary) are derived output, modelled
separately by chipStatus. -/
def applyWordHighlights (s : AppState) (recognizedWords : List String) : AppState :=
  if s.targetWords = [] then s
  else
    let res := matchWords s.targetWords recognizedWords s.skippedIndices
    { s with lastRecognizedWords := recognizedWords, currentMatchIndex := res.furthestMatch }

/-- skipCurrentWord (script.js lines 564-588): no-op without targets or
when nextIndex = currentMatchIndex + 1 is outside [0, n); otherwise add
nextIndex to the skip set and re-run highlighting with the cached
recognition (or with [] when none is cached). -/
def skipCurrentWord (s : AppState) : AppState :=
  if s.targetWords.length = 0 then s
  else
    let nextIndex : Int := s.currentMatchIndex + 1
    if nextIndex < 0 ∨ (s.targetWords.length : Int) ≤ nextIndex then s
    else
      let s1 := { s with skippedIndices := s.skippedIndices ++ [nextIndex.toNat] }
      if s1.lastRecognizedWords.length ≠ 0 then applyWordHighlights s1 s1.lastRecognizedWords
      else applyWordHighlights s1 []

/-- Accumulator splitter modelling the host primitive
rawText.trim().split with the whitespace pattern: `acc` holds the chars
of the current word reversed; tokens are the maximal whitespace-free
runs, so surrounding whitespace and the empty-input artifact of the JS
split are already absorbed (they are filtered out in every caller). -/
def wsTokensAux : List Char → List Char → List String
  | acc, [] => if acc = [] then [] else [String.mk acc.reverse]
  | acc, ch :: cs =>
    if ch.isWhitespace then
      (if acc = [] then [] else [String.mk acc.reverse]) ++ wsTokensAux [] cs
    else
      wsTokensAux (ch :: acc) cs

/-- The whitespace-delimited words of a string: trim + split on runs of
whitespace, with the empty tokens the JS split never yields after
filter(Boolean). -/
def wsSplit (s : String) : List String :=
  wsTokensAux [] s.data

/-- normalizeWord (script.js lines 89-92): drop every character that is
not a Unicode letter or number, then lowercase. The host Unicode tables
behind the letter-or-number character class and toLocaleLowerCase are
abstracted as the parameters `isLN` and `lower`. -/
def normalizeWord (isLN : Char → Bool) (lower : Char → Char) (word : String) : String :=
  String.mk ((word.data.filter isLN).map lower)

/-- parseText (script.js lines 97-103): whitespace-split words paired
with their normalized form. wsSplit already drops the empty tokens the
JS filter(Boolean) removes. -/
def parseText (isLN : Char → Bool) (lower : Char → Char) (rawText : String) :
    List (String × String) :=
  (wsSplit rawText).map (fun word => (word, normalizeWord isLN lower word))

/-- normalizeWords (script.js lines 108-114): trim, split on whitespace,
normalize each word, drop words that normalize to the empty string. -/
def normalizeWords (isLN : Char → Bool) (lower : Char → Char) (rawText : String) :
    List String :=
  ((wsSplit rawText).map (normalizeWord isLN lower)).filter (fun w => w ≠ "")

/-- addTextToView (script.js lines 425-461) restricted to session state.
The JS guard on textInput.value.trim() being empty is expressed as
wsSplit being empty (a string trims to empty exactly when it has no
whitespace-delimited word). On success it replaces the target sequence,
resets currentMatchIndex and rawTranscript, and touches nothing else:
in particular skippedIndices, lastRecognizedWords and the pending
debounced snapshot are left as they were. -/
def addTextToView (isLN : Char → Bool) (lower : Char → Char) (s : AppState)
    (textVal : String) : AppState :=
  if wsSplit textVal = [] then s
  else
    let parsedWords := parseText isLN lower textVal
    if parsedWords = [] then s
    else
      let validWords := parsedWords.filter (fun w => 0 < w.2.length)
      if validWords = [] then s
      else
        { s with displayWords := validWords
                 targetWords := validWords.map (fun w => w.2)
                 currentMatchIndex := -1
                 rawTranscript := "" }

/-- clearTextView (script.js lines 507-518) restricted to session state:
clears targets, cursor, skip set and raw transcript. It does not touch
lastRecognizedWords nor the pending debounced snapshot. -/
def clearTextView (s : AppState) : AppState :=
  { s with targetWords := []
           displayWords := []
           currentMatchIndex := -1
           skippedIndices := []
           rawTranscript := "" }

/-- handleRecognitionResult (script.js lines 524-557) restricted to
session state, taking the already-assembled trimmed transcript: store it
as rawTranscript; when non-empty, normalize it and store the snapshot as
the pending debounced recognition. -/
def handleRecognitionResult (isLN : Char → Bool) (lower : Char → Char) (s : AppState)
    (fullTranscript : String) : AppState :=
  let s1 := { s with rawTranscript := fullTranscript }
  if fullTranscript = "" then s1
  else { s1 with pendingRecognition := some (normalizeWords isLN lower fullTranscript) }

/-- The debounced callback body of renderRecognition (script.js lines
64-83) firing: consume the pending snapshot; with a non-empty snapshot
and a non-empty target list, run applyWordHighlights, otherwise only
status text changes. -/
def renderRecognitionFire (s : AppState) : AppState :=
  match s.pendingRecognition with
  | none => s
  | some recognizedWords =>
    let s1 := { s with pendingRecognition := none }
    if recognizedWords.length = 0 then s1
    else if s1.targetWords ≠ [] then applyWordHighlights s1 recognizedWords
    else s1

/-- One session event: a debounced recognition update whose snapshot
extends the cached one by appending `extra` tokens, or a press of the
skip control. -/
inductive SessionEvent where
  | recog (extra : List String)
  | skip
  deriving DecidableEq, Repr

/-- One step of a session: the recog case is the renderRecognition
callback applied to the extended snapshot (empty snapshots and empty
target lists only change status text, as in lines 72-82). -/
def sessionStep (s : AppState) : SessionEvent → AppState
  | SessionEvent.recog extra =>
    let snap := s.lastRecognizedWords ++ extra
    if snap = [] then s
    else if s.targetWords = [] then s
    else applyWordHighlights s snap
  | SessionEvent.skip => skipCurrentWord s

/-- Run a session from a state through a list of events. -/
def sessionRun (s : AppState) (evs : List SessionEvent) : AppState :=
  evs.foldl sessionStep s

/-- Consistency of the tracker state within a session: either no
recognition has been applied yet and the cursor is -1, or the cursor is
exactly the furthestMatch of the cached snapshot under the current skip
set. This holds after startListening (cache empty, cursor -1) and is
preserved by every session event. -/
def TrackerInv (s : AppState) : Prop :=
  (s.lastRecognizedWords = [] ∧ s.currentMatchIndex = -1) ∨
  (s.lastRecognizedWords ≠ [] ∧
    s.currentMatchIndex =
      (matchWords s.targetWords s.lastRecognizedWords s.skippedIndices).furthestMatch)

/-- A loop value is "achieved": it is the initial -1 or the index of a
target that is matched in the current pass or skipped. -/
def Achieved (n : Nat) (sk : List Nat) (tm : List Bool) (x : Int) : Prop :=
  x = -1 ∨ ∃ j, j < n ∧ x = (j : Int) ∧ (tm.getD j false = true ∨ j ∈ sk)

lemma getD_set_true (tm : List Bool) (c j : Nat) (h : tm.getD j false = true) :
    (tm.set c true).getD j false = true := by
  induction tm generalizing c j with
  | nil => simp at h
  | cons b bs ih =>
    cases c with
    | zero => cases j <;> simp_all [List.getD]
    | succ c' => cases j <;> simp_all [List.getD]

lemma getD_set_self (tm : List Bool) (c : Nat) (h : c < tm.length) :
    (tm.set c true).getD c false = true := by
  induction tm generalizing c with
  | nil => simp at h
  | cons b bs ih =>
    cases c with
    | zero => simp [List.getD]
    | succ c' => simpa [List.getD] using ih c' (by simpa using h)

lemma advanceCursor_props (n : Nat) (sk : List Nat) (tm : List Bool) (c : Nat) (f : Int) :
    f ≤ (advanceCursor n sk tm c f).2 ∧ c ≤ (advanceCursor n sk tm c f).1 ∧
    (c ≤ n → (advanceCursor n sk tm c f).1 ≤ n) ∧
    (f < (c : Int) → (advanceCursor n sk tm c f).2 < ((advanceCursor n sk tm c f).1 : Int)) ∧
    (Achieved n sk tm f → Achieved n sk tm (advanceCursor n sk tm c f).2) := by
  induction c, f using advanceCursor.induct n sk tm with
  | case1 c f h ih =>
    rw [advanceCursor, dif_pos h]
    obtain ⟨ih1, ih2, ih3, ih4, ih5⟩ := ih
    refine ⟨le_trans (le_max_left _ _) ih1, le_trans (Nat.le_succ c) ih2,
      fun _ => ih3 h.1, fun hf => ih4 ?_, fun ha => ih5 ?_⟩
    · have : max f (c : Int) = (c : Int) := max_eq_right (le_of_lt hf)
      rw [this]
      exact_mod_cast Nat.lt_succ_self c
    · rcases max_choice f (c : Int) with hm | hm
      · rw [hm]; exact ha
      · rw [hm]
        refine Or.inr ⟨c, h.1, rfl, ?_⟩
        have := h.2
        simp only [isCompleted, Bool.or_eq_true, decide_eq_true_eq] at this
        tauto
  | case2 c f h =>
    rw [advanceCursor, dif_neg h]
    exact ⟨le_refl _, le_refl _, fun hc => hc, fun hf => hf, fun ha => ha⟩

/-- The combined invariant of the main loop of matchWords: targetMatched
keeps length n, the cursor stays in [0, n], furthestMatch stays in
[-1, cursor), furthestMatch is the index of a matched or skipped target
(or -1), and every recognizedMatched entry is a filled-in record whose
target index is in range. -/
def StepInv (n : Nat) (sk : List Nat) (st : LoopState) : Prop :=
  st.tm.length = n ∧ st.c ≤ n ∧ -1 ≤ st.f ∧ st.f < (st.c : Int) ∧
  Achieved n sk st.tm st.f ∧
  (∀ e ∈ st.rm, ∃ x, e = some x ∧ ∀ i, x.targetIndex = some i → i < n)

lemma matchStep_f_le (t : List String) (sk : List Nat) (st : LoopState) (w : String) :
    st.f ≤ (matchStep t sk st w).f := by
  have h := advanceCursor_props t.length sk st.tm st.c st.f
  simp only [matchStep]
  split
  · exact h.1
  · split
    · exact le_trans h.1 (le_max_left _ _)
    · exact h.1

lemma matchStep_rm (t : List String) (sk : List Nat) (st : LoopState) (w : String) :
    ∃ e, (matchStep t sk st w).rm = st.rm ++ [e] := by
  simp only [matchStep]
  split
  · exact ⟨_, rfl⟩
  · split
    · exact ⟨_, rfl⟩
    · exact ⟨_, rfl⟩

lemma achieved_set_true (n : Nat) (sk : List Nat) (tm : List Bool) (c : Nat) (x : Int)
    (h : Achieved n sk tm x) : Achieved n sk (tm.set c true) x := by
  rcases h with h | ⟨j, hj, hx, hres⟩
  · exact Or.inl h
  · refine Or.inr ⟨j, hj, hx, ?_⟩
    rcases hres with hm | hs
    · exact Or.inl (getD_set_true tm c j hm)
    · exact Or.inr hs

lemma matchStep_inv (t : List String) (sk : List Nat) (st : LoopState) (w : String)
    (h : StepInv t.length sk st) : StepInv t.length sk (matchStep t sk st w) := by
  obtain ⟨htm, hc, hf1, hfc, hach, hrm⟩ := h
  have hp := advanceCursor_props t.length sk st.tm st.c st.f
  obtain ⟨hp1, hp2, hp3, hp4, hp5⟩ := hp
  have hf' : -1 ≤ (advanceCursor t.length sk st.tm st.c st.f).2 := le_trans hf1 hp1
  have hfc' : (advanceCursor t.length sk st.tm st.c st.f).2 <
      ((advanceCursor t.length sk st.tm st.c st.f).1 : Int) := hp4 hfc
  simp only [matchStep]
  split
  · refine ⟨htm, hp3 hc, hf', hfc', hp5 hach, ?_⟩
    intro e he
    rcases List.mem_append.1 he with he | he
    · exact hrm e he
    · simp only [List.mem_singleton] at he
      exact ⟨_, by rw [he], by intro i hi; simp at hi⟩
  · rename_i hge
    push_neg at hge
    have hmax : max (advanceCursor t.length sk st.tm st.c st.f).2
        ((advanceCursor t.length sk st.tm st.c st.f).1 : Int) =
        ((advanceCursor t.length sk st.tm st.c st.f).1 : Int) := max_eq_right (le_of_lt hfc')
    split
    · refine ⟨by simpa using htm, Nat.succ_le_of_lt hge,
        le_trans hf' (le_max_left _ _), ?_, ?_, ?_⟩
      · show max (advanceCursor t.length sk st.tm st.c st.f).2
          ((advanceCursor t.length sk st.tm st.c st.f).1 : Int) <
          (((advanceCursor t.length sk st.tm st.c st.f).1 + 1 : Nat) : Int)
        rw [hmax]
        exact_mod_cast Nat.lt_succ_self _
      · show Achieved t.length sk
          (st.tm.set (advanceCursor t.length sk st.tm st.c st.f).1 true)
          (max (advanceCursor t.length sk st.tm st.c st.f).2
            ((advanceCursor t.length sk st.tm st.c st.f).1 : Int))
        rw [hmax]
        exact Or.inr ⟨_, hge, rfl, Or.inl (getD_set_self st.tm _ (by omega))⟩
      · intro e he
        rcases List.mem_append.1 he with he | he
        · exact hrm e he
        · simp only [List.mem_singleton] at he
          refine ⟨_, by rw [he], ?_⟩
          intro i hi
          simp only [Option.some.injEq] at hi
          omega
    · refine ⟨htm, le_of_lt hge, hf', hfc', hp5 hach, ?_⟩
      intro e he
      rcases List.mem_append.1 he with he | he
      · exact hrm e he
      · simp only [List.mem_singleton] at he
        refine ⟨_, by rw [he], ?_⟩
        intro i hi
        simp only [Option.some.injEq] at hi
        omega

lemma foldl_matchStep_f_le (t : List String) (sk : List Nat) :
    ∀ (l : List String) (st : LoopState), st.f ≤ (l.foldl (matchStep t sk) st).f := by
  intro l
  induction l with
  | nil => intro st; exact le_refl _
  | cons w ws ih =>
    intro st
    exact le_trans (matchStep_f_le t sk st w) (ih (matchStep t sk st w))

lemma foldl_matchStep_inv (t : List String) (sk : List Nat) :
    ∀ (l : List String) (st : LoopState), StepInv t.length sk st →
      StepInv t.length sk (l.foldl (matchStep t sk) st) := by
  intro l
  induction l with
  | nil => intro st h; exact h
  | cons w ws ih => intro st h; exact ih _ (matchStep_inv t sk st w h)

lemma foldl_matchStep_rm_len (t : List String) (sk : List Nat) :
    ∀ (l : List String) (st : LoopState),
      (l.foldl (matchStep t sk) st).rm.length = st.rm.length + l.length := by
  intro l
  induction l with
  | nil => intro st; simp
  | cons w ws ih =>
    intro st
    obtain ⟨e, he⟩ := matchStep_rm t sk st w
    rw [List.foldl_cons, ih, he]
    simp
    omega

lemma skipFold_ge_init (n : Nat) (sk : List Nat) :
    ∀ f : Int, f ≤ skipFold n f sk := by
  induction sk with
  | nil => intro f; exact le_refl _
  | cons k ks ih =>
    intro f
    unfold skipFold
    rw [List.foldl_cons]
    refine le_trans ?_ (ih _)
    split
    · exact le_max_left _ _
    · exact le_refl _

lemma skipFold_mono (n : Nat) (sk : List Nat) :
    ∀ a b : Int, a ≤ b → skipFold n a sk ≤ skipFold n b sk := by
  induction sk with
  | nil => intro a b h; exact h
  | cons k ks ih =>
    intro a b h
    unfold skipFold
    rw [List.foldl_cons, List.foldl_cons]
    apply ih
    split
    · exact max_le_max h (le_refl _)
    · exact h

lemma skipFold_mem (n : Nat) (sk : List Nat) (k : Nat) (hk : k ∈ sk) (hn : k < n) :
    ∀ f : Int, (k : Int) ≤ skipFold n f sk := by
  induction sk with
  | nil => simp at hk
  | cons k' ks ih =>
    intro f
    rcases List.mem_cons.1 hk with h | h
    · subst h
      unfold skipFold
      rw [List.foldl_cons, if_pos hn]
      exact le_trans (le_max_right _ _) (skipFold_ge_init n ks _)
    · unfold skipFold
      rw [List.foldl_cons]
      exact ih h _

lemma skipFold_lt (n : Nat) (sk : List Nat) :
    ∀ f : Int, f < (n : Int) → skipFold n f sk < (n : Int) := by
  induction sk with
  | nil => intro f h; exact h
  | cons k ks ih =>
    intro f h
    unfold skipFold
    rw [List.foldl_cons]
    apply ih
    split
    · rename_i hkn
      exact max_lt h (by exact_mod_cast hkn)
    · exact h

lemma matchWords_main (t r : List String) (sk : List Nat) (hn : t.length ≠ 0)
    (hr : r.length ≠ 0) :
    matchWords t r sk =
      { targetMatched :=
          (r.foldl (matchStep t sk) ⟨List.replicate t.length false, [], -1, 0⟩).tm
        recognizedMatched :=
          (r.foldl (matchStep t sk) ⟨List.replicate t.length false, [], -1, 0⟩).rm
        furthestMatch :=
          skipFold t.length
            (r.foldl (matchStep t sk) ⟨List.replicate t.length false, [], -1, 0⟩).f sk } := by
  simp [matchWords, hn, hr]

lemma matchWords_empty_rec (t : List String) (sk : List Nat) (hn : t.length ≠ 0) :
    matchWords t [] sk = ⟨List.replicate t.length false, [], -1⟩ := by
  simp [matchWords, hn]

lemma initInv (t : List String) (sk : List Nat) :
    StepInv t.length sk ⟨List.replicate t.length false, [], -1, 0⟩ := by
  refine ⟨by simp, by simp, by norm_num, by norm_num, Or.inl rfl, by simp⟩

lemma skipFold_achieved (n : Nat) (SK : List Nat) (tm : List Bool) :
    ∀ (sk : List Nat), (∀ k ∈ sk, k ∈ SK) →
      ∀ f : Int, Achieved n SK tm f → Achieved n SK tm (skipFold n f sk) := by
  intro sk
  induction sk with
  | nil => intro _ f h; exact h
  | cons k ks ih =>
    intro hsub f h
    unfold skipFold
    rw [List.foldl_cons]
    apply ih (fun k' hk' => hsub k' (List.mem_cons_of_mem _ hk'))
    split
    · rename_i hkn
      rcases max_choice f (k : Int) with hm | hm
      · rw [hm]; exact h
      · rw [hm]
        exact Or.inr ⟨k, hkn, rfl, Or.inr (hsub k (List.mem_cons_self k ks))⟩
    · exact h

lemma matchWords_props (t r : List String) (sk : List Nat) :
    (matchWords t r sk).targetMatched.length = t.length ∧
    (matchWords t r sk).recognizedMatched.length = r.length ∧
    (∀ e ∈ (matchWords t r sk).recognizedMatched, ∃ x, e = some x ∧
      ∀ i, x.targetIndex = some i → i < t.length) ∧
    -1 ≤ (matchWords t r sk).furthestMatch ∧
    (matchWords t r sk).furthestMatch < (t.length : Int) ∧
    ((matchWords t r sk).furthestMatch = -1 ∨ ∃ j, j < t.length ∧
      (matchWords t r sk).furthestMatch = (j : Int) ∧
      ((matchWords t r sk).targetMatched.getD j false = true ∨ j ∈ sk)) := by
  by_cases hn : t.length = 0
  · simp only [matchWords, if_pos hn]
    refine ⟨by simp [hn], by simp, ?_, by norm_num, by simp [hn], Or.inl (by trivial)⟩
    intro e he
    simp only [List.mem_map] at he
    obtain ⟨w, _, hw⟩ := he
    exact ⟨_, hw.symm, by intro i hi; simp at hi⟩
  · by_cases hr : r.length = 0
    · have hr' : r = [] := List.length_eq_zero.1 hr
      subst hr'
      rw [matchWords_empty_rec t sk hn]
      refine ⟨by simp, by simp, by simp, by norm_num,
        by show (-1 : Int) < (t.length : Int); omega, Or.inl (by trivial)⟩
    · rw [matchWords_main t r sk hn hr]
      have hinv := foldl_matchStep_inv t sk r _ (initInv t sk)
      obtain ⟨htm, hc, hf1, hfc, hach, hrm⟩ := hinv
      have hfn : (r.foldl (matchStep t sk) ⟨List.replicate t.length false, [], -1, 0⟩).f <
          (t.length : Int) := by
        have : ((r.foldl (matchStep t sk) ⟨List.replicate t.length false, [], -1, 0⟩).c : Int) ≤
            (t.length : Int) := by exact_mod_cast hc
        omega
      refine ⟨htm, ?_, hrm, ?_, ?_, ?_⟩
      · have := foldl_matchStep_rm_len t sk r ⟨List.replicate t.length false, [], -1, 0⟩
        simpa using this
      · exact le_trans hf1 (skipFold_ge_init t.length sk _)
      · exact skipFold_lt t.length sk _ hfn
      · exact skipFold_achieved t.length sk _ sk (fun k hk => hk) _ hach

lemma matchWords_f_ge (t r : List String) (sk : List Nat) :
    -1 ≤ (matchWords t r sk).furthestMatch :=
  (matchWords_props t r sk).2.2.2.1

lemma matchWords_f_lt (t r : List String) (sk : List Nat) :
    (matchWords t r sk).furthestMatch < (t.length : Int) :=
  (matchWords_props t r sk).2.2.2.2.1

lemma matchWords_ext (t r e : List String) (sk : List Nat) :
    (matchWords t r sk).furthestMatch ≤ (matchWords t (r ++ e) sk).furthestMatch := by
  by_cases hn : t.length = 0
  · simp [matchWords, hn]
  · by_cases hr : r.length = 0
    · have hr' : r = [] := List.length_eq_zero.1 hr
      subst hr'
      rw [matchWords_empty_rec t sk hn]
      exact matchWords_f_ge t ([] ++ e) sk
    · have hre : (r ++ e).length ≠ 0 := by rw [List.length_append]; omega
      rw [matchWords_main t r sk hn hr, matchWords_main t (r ++ e) sk hn hre]
      simp only [List.foldl_append]
      exact skipFold_mono t.length sk _ _ (foldl_matchStep_f_le t sk e _)

lemma matchWords_skip_mem (t r : List String) (sk : List Nat) (k : Nat)
    (hk : k ∈ sk) (hkn : k < t.length) (hr : r.length ≠ 0) :
    (k : Int) ≤ (matchWords t r sk).furthestMatch := by
  have hn : t.length ≠ 0 := by omega
  rw [matchWords_main t r sk hn hr]
  exact skipFold_mem t.length sk k hk hkn _

lemma sessionStep_mono (s : AppState) (e : SessionEvent) (h : TrackerInv s) :
    TrackerInv (sessionStep s e) ∧
      s.currentMatchIndex ≤ (sessionStep s e).currentMatchIndex := by
  cases e with
  | recog extra =>
    simp only [sessionStep]
    split
    · exact ⟨h, le_refl _⟩
    · split
      · exact ⟨h, le_refl _⟩
      · rename_i hsnap htgt
        simp only [applyWordHighlights, if_neg htgt]
        refine ⟨Or.inr ⟨hsnap, rfl⟩, ?_⟩
        rcases h with ⟨_, hcur⟩ | ⟨_, hcur⟩
        · rw [hcur]
          exact matchWords_f_ge _ _ _
        · rw [hcur]
          exact matchWords_ext _ _ _ _
  | skip =>
    simp only [sessionStep, skipCurrentWord]
    split
    · exact ⟨h, le_refl _⟩
    · rename_i hlen
      split
      · exact ⟨h, le_refl _⟩
      · rename_i hrange
        push_neg at hrange
        have htgt : ¬ s.targetWords = [] := by
          intro hh
          exact hlen (by simp [hh])
        split
        · rename_i hcache
          simp only [applyWordHighlights, if_neg htgt]
          constructor
          · exact Or.inr ⟨fun hh => hcache (by simpa using congrArg List.length hh), rfl⟩
          · have hge0 : 0 ≤ s.currentMatchIndex + 1 := hrange.1
            have hklt : (s.currentMatchIndex + 1).toNat < s.targetWords.length := by
              have := hrange.2
              omega
            have hmem : (s.currentMatchIndex + 1).toNat ∈
                s.skippedIndices ++ [(s.currentMatchIndex + 1).toNat] := by
              simp
            have hbig := matchWords_skip_mem s.targetWords s.lastRecognizedWords
              (s.skippedIndices ++ [(s.currentMatchIndex + 1).toNat])
              (s.currentMatchIndex + 1).toNat hmem hklt (by
                intro hh
                exact hcache hh)
            have hcast : (((s.currentMatchIndex + 1).toNat : Nat) : Int) =
                s.currentMatchIndex + 1 := Int.toNat_of_nonneg hge0
            rw [hcast] at hbig
            omega
        · rename_i hcache
          have hcache' : s.lastRecognizedWords = [] := by
            by_contra hh
            exact hcache (by
              intro hlen0
              exact hh (List.length_eq_zero.1 hlen0))
          simp only [applyWordHighlights, if_neg htgt]
          have hnz : s.targetWords.length ≠ 0 := hlen
          rw [matchWords_empty_rec s.targetWords _ hnz]
          constructor
          · exact Or.inl ⟨rfl, rfl⟩
          · rcases h with ⟨_, hcur⟩ | ⟨hc, _⟩
            · rw [hcur]
            · exact absurd hcache' hc

lemma getD_append_len {α : Type} (l1 l2 : List α) (d : α) :
    (l1 ++ l2).getD l1.length d = l2.getD 0 d := by
  induction l1 with
  | nil => rfl
  | cons x xs ih => simpa [List.getD] using ih

lemma set_append_len (l1 l2 : List Bool) (a : Bool) :
    (l1 ++ l2).set l1.length a = l1 ++ l2.set 0 a := by
  induction l1 with
  | nil => rfl
  | cons x xs ih => simp [List.set, ih]

lemma getD_replicate_append {α : Type} (k : Nat) (b : α) (l : List α) (d : α) :
    (List.replicate k b ++ l).getD k d = l.getD 0 d := by
  have h := getD_append_len (List.replicate k b) l d
  simpa using h

lemma replicate_append_cons (k : Nat) (b : Bool) (l : List Bool) :
    List.replicate k b ++ b :: l = b :: (List.replicate k b ++ l) := by
  induction k with
  | zero => rfl
  | succ k ih => simp [List.replicate_succ, ih]

/-- The loop state after the first `k` recognized words of an identical
run: the first k targets matched, k match records, furthestMatch k - 1,
cursor k; `j` targets remain. -/
def idState (k j : Nat) : LoopState :=
  ⟨List.replicate k true ++ List.replicate j false,
   (List.range k).map (fun i => some ⟨some i, MatchStatus.match'⟩),
   (k : Int) - 1, k⟩

lemma idState_zero (j : Nat) :
    idState 0 j = ⟨List.replicate j false, [], -1, 0⟩ := by
  simp [idState]

lemma run_id : ∀ (post pre : List String),
    post.foldl (matchStep (pre ++ post) []) (idState pre.length post.length) =
      idState (pre.length + post.length) 0 := by
  intro post
  induction post with
  | nil =>
    intro pre
    simp [idState]
  | cons a as ih =>
    intro pre
    have hadv : advanceCursor (pre ++ a :: as).length []
        (List.replicate pre.length true ++ List.replicate (as.length + 1) false)
        pre.length ((pre.length : Int) - 1) =
        (pre.length, (pre.length : Int) - 1) := by
      rw [advanceCursor, dif_neg]
      intro hcon
      have h2 := hcon.2
      simp only [isCompleted, getD_replicate_append, List.replicate_succ,
        List.getD_cons_zero] at h2
      simp at h2
    have hstep : matchStep (pre ++ a :: as) [] (idState pre.length (as.length + 1)) a =
        idState (pre.length + 1) as.length := by
      simp only [matchStep, idState, hadv]
      rw [if_neg (by simp)]
      rw [getD_append_len pre (a :: as) ""]
      rw [if_pos (by rfl)]
      have h1 : (List.replicate pre.length true ++
          List.replicate (as.length + 1) false).set pre.length true =
          List.replicate (pre.length + 1) true ++ List.replicate as.length false := by
        have hset := set_append_len (List.replicate pre.length true)
          (List.replicate (as.length + 1) false) true
        rw [List.length_replicate] at hset
        rw [hset, List.replicate_succ, List.set_cons_zero, replicate_append_cons,
          List.replicate_succ]
        rfl
      have h2 : ((List.range pre.length).map
            (fun i => some (⟨some i, MatchStatus.match'⟩ : RecMatch))) ++
            [some ⟨some pre.length, MatchStatus.match'⟩] =
          (List.range (pre.length + 1)).map
            (fun i => some (⟨some i, MatchStatus.match'⟩ : RecMatch)) := by
        rw [List.range_succ, List.map_append]
        simp
      have h3 : max ((pre.length : Int) - 1) (pre.length : Int) =
          ((pre.length + 1 : Nat) : Int) - 1 := by
        rw [max_eq_right (by omega)]
        push_cast
        ring
      rw [h1, h2, h3]
    rw [List.foldl_cons]
    have hlen : (a :: as).length = as.length + 1 := rfl
    rw [hlen, hstep]
    have hip := ih (pre ++ [a])
    rw [show (pre ++ [a]) ++ as = pre ++ a :: as by simp] at hip
    rw [show (pre ++ [a]).length = pre.length + 1 by simp] at hip
    rw [hip]
    congr 1
    omega

lemma emit_sound (acc : List Char) (hacc : ∀ ch ∈ acc, ch.isWhitespace = false)
    (hne : acc ≠ []) :
    String.mk acc.reverse ≠ "" ∧
      ∀ ch ∈ (String.mk acc.reverse).data, ch.isWhitespace = false := by
  constructor
  · intro hcon
    apply hne
    have hdata : acc.reverse = ([] : List Char) := congrArg String.data hcon
    simpa using hdata
  · intro ch hch
    exact hacc ch (List.mem_reverse.1 hch)

lemma wsTokensAux_sound : ∀ (cs acc : List Char),
    (∀ ch ∈ acc, ch.isWhitespace = false) →
    ∀ w ∈ wsTokensAux acc cs, w ≠ "" ∧ ∀ ch ∈ w.data, ch.isWhitespace = false := by
  intro cs
  induction cs with
  | nil =>
    intro acc hacc w hw
    simp only [wsTokensAux] at hw
    split at hw
    · simp at hw
    · rename_i hne
      simp only [List.mem_singleton] at hw
      subst hw
      exact emit_sound acc hacc hne
  | cons c cs ih =>
    intro acc hacc w hw
    simp only [wsTokensAux] at hw
    split at hw
    · rcases List.mem_append.1 hw with hw | hw
      · split at hw
        · simp at hw
        · rename_i hne
          simp only [List.mem_singleton] at hw
          subst hw
          exact emit_sound acc hacc hne
      · exact ih [] (by simp) w hw
    · rename_i hcws
      refine ih (c :: acc) ?_ w hw
      intro ch hch
      rcases List.mem_cons.1 hch with h | h
      · subst h
        simpa using hcws
      · exact hacc ch h

lemma wsSplit_sound (s : String) :
    ∀ w ∈ wsSplit s, w ≠ "" ∧ ∀ ch ∈ w.data, ch.isWhitespace = false :=
  wsTokensAux_sound s.data [] (by simp)

lemma sessionRun_mono :
    ∀ (evs : List SessionEvent) (s : AppState), TrackerInv s →
      TrackerInv (sessionRun s evs) ∧
        s.currentMatchIndex ≤ (sessionRun s evs).currentMatchIndex := by
  intro evs
  induction evs with
  | nil => intro s h; exact ⟨h, le_refl _⟩
  | cons e es ih =>
    intro s h
    obtain ⟨h1, h2⟩ := sessionStep_mono s e h
    obtain ⟨h3, h4⟩ := ih (sessionStep s e) h1
    exact ⟨h3, le_trans h2 h4⟩

/-- Claim C1: when the recognized word compared at the (advanced) cursor
position differs from the target word there, matchWords classifies it as
a mismatch carrying that cursor as targetIndex and leaves the cursor in
place, so following recognized words are compared against the same
position; concretely, for target [hello, world] and recognized
[goodbye, goodbye] with no skips, both tokens are mismatches at target
index 0, furthestMatch is -1 and no target is matched. -/
theorem C1_mismatch_stall :
    (∀ (t : List String) (sk : List Nat) (st : LoopState) (w : String),
      (advanceCursor t.length sk st.tm st.c st.f).1 < t.length →
      w ≠ t.getD (advanceCursor t.length sk st.tm st.c st.f).1 "" →
      matchStep t sk st w =
        { st with
          rm := st.rm ++ [some ⟨some (advanceCursor t.length sk st.tm st.c st.f).1,
            MatchStatus.mismatch⟩]
          f := (advanceCursor t.length sk st.tm st.c st.f).2
          c := (advanceCursor t.length sk st.tm st.c st.f).1 }) ∧
    matchWords ["hello", "world"] ["goodbye", "goodbye"] [] =
      ⟨[false, false],
        [some ⟨some 0, MatchStatus.mismatch⟩, some ⟨some 0, MatchStatus.mismatch⟩], -1⟩ := by
  constructor
  · intro t sk st w h1 h2
    simp only [matchStep]
    rw [if_neg (by omega), if_neg h2]
  · simp [matchWords, matchStep, advanceCursor, isCompleted, skipFold]

/-- Witness for C1: a concrete mismatch step. -/
theorem C1_mismatch_stall_witness :
    matchStep ["a"] [] ⟨[false], [], -1, 0⟩ "b" =
      ⟨[false], [some ⟨some 0, MatchStatus.mismatch⟩], -1, 0⟩ := by
  have h := C1_mismatch_stall.1 ["a"] [] ⟨[false], [], -1, 0⟩ "b"
    (by simp [advanceCursor, isCompleted])
    (by simp [advanceCursor, isCompleted])
  simpa [advanceCursor, isCompleted] using h

/-- Claim C2 (code bug evidence): with target [a, b] and no recognition
yet, one skip puts 0 into the skip set but the m = 0 early return of
matchWords bypasses the skip-set fold, so furthestMatch stays -1, target
0 remains the current chip and target 1 stays neutral, contradicting the
spec (furthestMatch 0, target 0 skipped-mismatch, target 1 current) and
the code comment that promises the current marker advances. -/
theorem C2_skip_without_recognition_bug :
    (matchWords ["a", "b"] [] [0]).furthestMatch = -1 ∧
    skipCurrentWord ⟨["a", "b"], [("a", "a"), ("b", "b")], -1, "", [], [], none⟩ =
      ⟨["a", "b"], [("a", "a"), ("b", "b")], -1, "", [0], [], none⟩ ∧
    chipStatus (matchWords ["a", "b"] [] [0]) false 0 = ChipStatus.current ∧
    chipStatus (matchWords ["a", "b"] [] [0]) false 1 = ChipStatus.pending := by
  refine ⟨by simp [matchWords], ?_, by simp [matchWords, chipStatus],
    by simp [matchWords, chipStatus]⟩
  simp [skipCurrentWord, applyWordHighlights, matchWords]

/-- Claim C6: with an empty skip set, aligning a recognized sequence
equal to the target sequence marks every target matched, classifies
recognized token i as a match at target index i, and yields
furthestMatch = total - 1. -/
theorem C6_no_skip_identity (t : List String) :
    matchWords t t [] =
      ⟨List.replicate t.length true,
        (List.range t.length).map (fun i => some ⟨some i, MatchStatus.match'⟩),
        (t.length : Int) - 1⟩ := by
  by_cases hn : t.length = 0
  · have ht : t = [] := List.length_eq_zero.1 hn
    subst ht
    simp [matchWords]
  · rw [matchWords_main t t [] hn hn]
    have h := run_id t []
    simp only [List.nil_append, List.length_nil] at h
    rw [idState_zero] at h
    rw [h]
    simp [idState, skipFold]

/-- Claim C3 counterexample: within one session (target [a], skip set
empty and unchanged, no reset), two recognition updates whose snapshots
are [a] and then [b] (the second revises the first, as interim
hypotheses may) move the tracked furthestMatch from 0 back to -1: the
cursor decreases under arbitrary snapshots. -/
theorem C3_cursor_can_decrease :
    (applyWordHighlights ⟨["a"], [("a", "a")], -1, "", [], [], none⟩
        ["a"]).currentMatchIndex = 0 ∧
    (applyWordHighlights
        (applyWordHighlights ⟨["a"], [("a", "a")], -1, "", [], [], none⟩ ["a"])
        ["b"]).currentMatchIndex = -1 := by
  constructor <;>
    simp [applyWordHighlights, matchWords, matchStep, advanceCursor, isCompleted, skipFold]

/-- Claim C3 (amended): within one session the tracked furthestMatch
never decreases across recognition updates and skips, provided each
update's snapshot extends the cached previous snapshot by appending
tokens; an update that revises earlier tokens can lower it (see the
counterexample). -/
theorem C3_cursor_monotone (s : AppState) (evs : List SessionEvent)
    (h : TrackerInv s) :
    s.currentMatchIndex ≤ (sessionRun s evs).currentMatchIndex :=
  (sessionRun_mono evs s h).2

/-- Witness for C3: a fresh session runs one recognition update and one
skip; the cursor does not decrease. -/
theorem C3_cursor_monotone_witness :
    (⟨["a"], [("a", "a")], -1, "", [], [], none⟩ : AppState).currentMatchIndex ≤
      (sessionRun ⟨["a"], [("a", "a")], -1, "", [], [], none⟩
        [SessionEvent.recog ["a"], SessionEvent.skip]).currentMatchIndex :=
  C3_cursor_monotone ⟨["a"], [("a", "a")], -1, "", [], [], none⟩
    [SessionEvent.recog ["a"], SessionEvent.skip] (Or.inl ⟨rfl, rfl⟩)

/-- Claim C5 counterexample: target [a, b, c], recognized [x], skip set
\x7b2\x7d (all indices in range): target 0 derives skipped-mismatch (it is
unmatched and 0 is at most furthestMatch = 2) yet 0 is not in the skip
set — the status also fires for unskipped indices overtaken by a larger
skip index. -/
theorem C5_skipped_mismatch_not_in_skipset :
    chipStatus (matchWords ["a", "b", "c"] ["x"] [2]) true 0 = ChipStatus.skippedMismatch ∧
    0 ∉ ([2] : List Nat) ∧
    (matchWords ["a", "b", "c"] ["x"] [2]).targetMatched.getD 0 false = false := by
  refine ⟨?_, by simp, ?_⟩ <;>
    simp [matchWords, matchStep, advanceCursor, isCompleted, skipFold, chipStatus]

/-- Claim C5 (amended): a target index whose derived status is
skipped-mismatch need not itself be in the skip set; what holds is that
it is bounded by a resolved index: some j with i ≤ j < total is matched
in this pass or belongs to the skip set. -/
theorem C5_skipped_mismatch_bounded (t r : List String) (sk : List Nat) (i : Nat)
    (h : chipStatus (matchWords t r sk) (decide (r ≠ [])) i = ChipStatus.skippedMismatch) :
    ∃ j, j < t.length ∧ i ≤ j ∧
      ((matchWords t r sk).targetMatched.getD j false = true ∨ j ∈ sk) := by
  simp only [chipStatus] at h
  split at h
  · exact ChipStatus.noConfusion h
  · split at h
    · rename_i hcond
      rcases (matchWords_props t r sk).2.2.2.2.2 with hf | ⟨j, hjn, hjf, hres⟩
      · have h1 := hcond.1
        rw [hf] at h1
        omega
      · refine ⟨j, hjn, ?_, hres⟩
        have h1 := hcond.1
        rw [hjf] at h1
        exact_mod_cast h1
    · split at h
      · exact ChipStatus.noConfusion h
      · exact ChipStatus.noConfusion h

/-- Witness for C5 (amended): target [a, b], recognized [x], skip set
\x7b1\x7d; index 0 is skipped-mismatch and is bounded by the skipped
index 1. -/
theorem C5_skipped_mismatch_bounded_witness :
    ∃ j, j < (["a", "b"] : List String).length ∧ 0 ≤ j ∧
      ((matchWords ["a", "b"] ["x"] [1]).targetMatched.getD j false = true ∨
        j ∈ ([1] : List Nat)) :=
  C5_skipped_mismatch_bounded ["a", "b"] ["x"] [1] 0
    (by simp [matchWords, matchStep, advanceCursor, isCompleted, skipFold, chipStatus])

/-- Claim C7: skipCurrentWord is a silent no-op exactly when there is no
target sequence or nextIndex = currentMatchIndex + 1 is outside
[0, total); otherwise it adds exactly nextIndex to the skip set and
re-runs highlighting on the cached snapshot (when no snapshot is cached
the cache is empty, so the empty-snapshot re-run coincides with it). -/
theorem C7_skip_current_spec (s : AppState) :
    ((s.targetWords = [] ∨ s.currentMatchIndex + 1 < 0 ∨
        (s.targetWords.length : Int) ≤ s.currentMatchIndex + 1) →
      skipCurrentWord s = s) ∧
    (s.targetWords ≠ [] → 0 ≤ s.currentMatchIndex + 1 →
      s.currentMatchIndex + 1 < (s.targetWords.length : Int) →
      skipCurrentWord s =
        applyWordHighlights
          { s with skippedIndices :=
              s.skippedIndices ++ [(s.currentMatchIndex + 1).toNat] }
          s.lastRecognizedWords ∧
      (∀ j : Nat, j ∈ (skipCurrentWord s).skippedIndices ↔
        j ∈ s.skippedIndices ∨ (j : Int) = s.currentMatchIndex + 1)) := by
  constructor
  · intro h
    simp only [skipCurrentWord]
    rcases h with h | h | h
    · rw [if_pos (by simp [h])]
    · by_cases hlen : s.targetWords.length = 0
      · rw [if_pos hlen]
      · rw [if_neg hlen, if_pos (Or.inl h)]
    · by_cases hlen : s.targetWords.length = 0
      · rw [if_pos hlen]
      · rw [if_neg hlen, if_pos (Or.inr h)]
  · intro h1 h2 h3
    have hlen : ¬ s.targetWords.length = 0 := by
      intro hh
      exact h1 (List.length_eq_zero.1 hh)
    have hmain : skipCurrentWord s =
        applyWordHighlights
          { s with skippedIndices :=
              s.skippedIndices ++ [(s.currentMatchIndex + 1).toNat] }
          s.lastRecognizedWords := by
      simp only [skipCurrentWord]
      rw [if_neg hlen, if_neg (by push_neg; exact ⟨h2, h3⟩)]
      split
      · rfl
      · rename_i hc
        have hemp : s.lastRecognizedWords = [] := by
          by_contra hh
          exact hc fun h0 => hh (List.length_eq_zero.1 h0)
        rw [hemp]
    refine ⟨hmain, ?_⟩
    intro j
    have hskips : (skipCurrentWord s).skippedIndices =
        s.skippedIndices ++ [(s.currentMatchIndex + 1).toNat] := by
      rw [hmain]
      simp only [applyWordHighlights]
      split <;> rfl
    rw [hskips]
    have hiff : j = (s.currentMatchIndex + 1).toNat ↔
        (j : Int) = s.currentMatchIndex + 1 := by omega
    simp only [List.mem_append, List.mem_singleton]
    rw [hiff]

/-- Witness for C7: the no-op branch on an empty target, and the
skip-and-realign branch on a fresh one-word session. -/
theorem C7_skip_current_spec_witness :
    skipCurrentWord ⟨[], [], -1, "", [], [], none⟩ = ⟨[], [], -1, "", [], [], none⟩ ∧
    skipCurrentWord ⟨["a"], [("a", "a")], -1, "", [], [], none⟩ =
      applyWordHighlights ⟨["a"], [("a", "a")], -1, "", [0], [], none⟩ [] := by
  constructor
  · exact (C7_skip_current_spec ⟨[], [], -1, "", [], [], none⟩).1 (Or.inl rfl)
  · have h := ((C7_skip_current_spec ⟨["a"], [("a", "a")], -1, "", [], [], none⟩).2
      (by simp) (by norm_num) (by norm_num)).1
    simpa using h

/-- Claim C8: matchWords is total and well-formed on every input:
targetMatched has one entry per target, every recognizedMatched entry is
a filled-in record with status match, mismatch or extra and any non-null
target index in [0, total), and furthestMatch lies in [-1, total). -/
theorem C8_align_total_wellformed (t r : List String) (sk : List Nat) :
    (matchWords t r sk).targetMatched.length = t.length ∧
    (matchWords t r sk).recognizedMatched.length = r.length ∧
    (∀ e ∈ (matchWords t r sk).recognizedMatched, ∃ x, e = some x ∧
      (x.status = MatchStatus.match' ∨ x.status = MatchStatus.mismatch ∨
        x.status = MatchStatus.extra) ∧
      ∀ i, x.targetIndex = some i → i < t.length) ∧
    -1 ≤ (matchWords t r sk).furthestMatch ∧
    (matchWords t r sk).furthestMatch < (t.length : Int) := by
  obtain ⟨h1, h2, h3, h4, h5, _⟩ := matchWords_props t r sk
  refine ⟨h1, h2, ?_, h4, h5⟩
  intro e he
  obtain ⟨x, hx, hr⟩ := h3 e he
  refine ⟨x, hx, ?_, hr⟩
  cases hs : x.status <;> simp

/-- Witness for C8: the entry produced for a correct one-word
recognition is well-formed. -/
theorem C8_align_total_wellformed_witness :
    ∃ x, (some (⟨some 0, MatchStatus.match'⟩ : RecMatch)) = some x ∧
      (x.status = MatchStatus.match' ∨ x.status = MatchStatus.mismatch ∨
        x.status = MatchStatus.extra) ∧
      ∀ i, x.targetIndex = some i → i < (["a"] : List String).length :=
  (C8_align_total_wellformed ["a"] ["a"] []).2.2.1 _
    (by simp [matchWords, matchStep, advanceCursor, isCompleted, skipFold])

/-- Claim C4 counterexample: submitting the valid text New over a state
carrying skip index 0 and cached snapshot [x] replaces the target
sequence and resets the cursor and raw transcript, but the skip set and
the cached recognized snapshot survive — addTextToView never clears
skippedIndices or lastRecognizedWords. -/
theorem C4_submit_keeps_skipset :
    (addTextToView (fun c => c.isAlphanum) (fun c => c.toLower)
        ⟨["old"], [("old", "old")], 5, "z", [0], ["x"], none⟩ "New") =
      ⟨["new"], [("New", "new")], -1, "", [0], ["x"], none⟩ := by
  decide

/-- Claim C4 (amended): submitting text whose tokenization yields at
least one valid word establishes the new target sequence and resets the
cursor to -1 and the raw transcript to empty, while leaving the skip set
and the cached recognized snapshot unchanged (those are cleared by
clearTextView and, for the skip set, when listening starts — not by
text submission). -/
theorem C4_submit_establishes_targets (isLN : Char → Bool) (lower : Char → Char)
    (s : AppState) (textVal : String)
    (hv : (parseText isLN lower textVal).filter (fun w => 0 < w.2.length) ≠ []) :
    addTextToView isLN lower s textVal =
      { s with
        displayWords := (parseText isLN lower textVal).filter (fun w => 0 < w.2.length)
        targetWords := ((parseText isLN lower textVal).filter
          (fun w => 0 < w.2.length)).map (fun w => w.2)
        currentMatchIndex := -1
        rawTranscript := "" } ∧
    (addTextToView isLN lower s textVal).skippedIndices = s.skippedIndices ∧
    (addTextToView isLN lower s textVal).lastRecognizedWords = s.lastRecognizedWords := by
  have hws : wsSplit textVal ≠ [] := by
    intro hw
    apply hv
    simp [parseText, hw]
  have hp : parseText isLN lower textVal ≠ [] := by
    intro hp0
    apply hv
    rw [hp0]
    rfl
  have hmain : addTextToView isLN lower s textVal =
      { s with
        displayWords := (parseText isLN lower textVal).filter (fun w => 0 < w.2.length)
        targetWords := ((parseText isLN lower textVal).filter
          (fun w => 0 < w.2.length)).map (fun w => w.2)
        currentMatchIndex := -1
        rawTranscript := "" } := by
    simp only [addTextToView]
    rw [if_neg hws, if_neg hp, if_neg hv]
  exact ⟨hmain, by rw [hmain], by rw [hmain]⟩

/-- Witness for C4 (amended): submitting Hi to a fresh state. -/
theorem C4_submit_establishes_targets_witness :
    addTextToView (fun c => c.isAlphanum) (fun c => c.toLower)
        ⟨[], [], -1, "", [], [], none⟩ "Hi" =
      { (⟨[], [], -1, "", [], [], none⟩ : AppState) with
        displayWords := (parseText (fun c => c.isAlphanum) (fun c => c.toLower) "Hi").filter
          (fun w => 0 < w.2.length)
        targetWords := ((parseText (fun c => c.isAlphanum) (fun c => c.toLower) "Hi").filter
          (fun w => 0 < w.2.length)).map (fun w => w.2)
        currentMatchIndex := -1
        rawTranscript := "" } :=
  (C4_submit_establishes_targets (fun c => c.isAlphanum) (fun c => c.toLower)
    ⟨[], [], -1, "", [], [], none⟩ "Hi" (by decide)).1

/-- Claim C9: for every input string the tokenizer yields exactly the
whitespace-delimited words normalized (non-letter-or-number characters
removed, then lowercased), with tokens that normalize to the empty
string discarded, so no output token is empty; the splitter itself is
total and produces only non-empty whitespace-free words. -/
theorem C9_tokenizer_safe (isLN : Char → Bool) (lower : Char → Char) (raw : String) :
    (∀ tok ∈ normalizeWords isLN lower raw, tok ≠ "" ∧
      ∃ w, w ∈ wsSplit raw ∧ tok = normalizeWord isLN lower w) ∧
    (∀ w ∈ wsSplit raw, w ≠ "" ∧ ∀ ch ∈ w.data, ch.isWhitespace = false) := by
  constructor
  · intro tok htok
    simp only [normalizeWords, List.mem_filter, List.mem_map] at htok
    obtain ⟨⟨w, hw, hwe⟩, hne⟩ := htok
    refine ⟨by simpa using hne, w, hw, hwe.symm⟩
  · exact wsSplit_sound raw

/-- Witness for C9: the single token of the input hi. -/
theorem C9_tokenizer_safe_witness :
    ("hi" : String) ≠ "" ∧ ∀ ch ∈ ("hi" : String).data, ch.isWhitespace = false :=
  (C9_tokenizer_safe (fun c => c.isAlphanum) (fun c => c.toLower) "hi").2 "hi"
    (by simp [wsSplit, wsTokensAux])

/-- Claim C10 (code bug evidence): a recognition of the word a leaves a
pending debounced snapshot; submitting new text b, or clearing the view,
does not cancel it, and when the debounce then fires the stale snapshot
is aligned against the new session state (the cache of the new session
becomes the old snapshot [a]) — the claimed cancellation does not exist
in the code. -/
theorem C10_stale_debounce_not_cancelled :
    (addTextToView (fun c => c.isAlphanum) (fun c => c.toLower)
        (handleRecognitionResult (fun c => c.isAlphanum) (fun c => c.toLower)
          ⟨["a"], [("a", "a")], -1, "", [], [], none⟩ "a") "b").pendingRecognition =
      some ["a"] ∧
    (clearTextView
        (handleRecognitionResult (fun c => c.isAlphanum) (fun c => c.toLower)
          ⟨["a"], [("a", "a")], -1, "", [], [], none⟩ "a")).pendingRecognition =
      some ["a"] ∧
    (renderRecognitionFire
        (addTextToView (fun c => c.isAlphanum) (fun c => c.toLower)
          (handleRecognitionResult (fun c => c.isAlphanum) (fun c => c.toLower)
            ⟨["a"], [("a", "a")], -1, "", [], [], none⟩ "a") "b")).lastRecognizedWords =
      ["a"] ∧
    (renderRecognitionFire
        (addTextToView (fun c => c.isAlphanum) (fun c => c.toLower)
          (handleRecognitionResult (fun c => c.isAlphanum) (fun c => c.toLower)
            ⟨["a"], [("a", "a")], -1, "", [], [], none⟩ "a") "b")).targetWords =
      ["b"] := by
  have h1 : handleRecognitionResult (fun c => c.isAlphanum) (fun c => c.toLower)
      ⟨["a"], [("a", "a")], -1, "", [], [], none⟩ "a" =
      ⟨["a"], [("a", "a")], -1, "a", [], [], some ["a"]⟩ := by decide
  have h2 : addTextToView (fun c => c.isAlphanum) (fun c => c.toLower)
      ⟨["a"], [("a", "a")], -1, "a", [], [], some ["a"]⟩ "b" =
      ⟨["b"], [("b", "b")], -1, "", [], [], some ["a"]⟩ := by decide
  have h3 : clearTextView ⟨["a"], [("a", "a")], -1, "a", [], [], some ["a"]⟩ =
      ⟨[], [], -1, "", [], [], some ["a"]⟩ := by decide
  refine ⟨?_, ?_, ?_, ?_⟩
  · rw [h1, h2]
  · rw [h1, h3]
  · rw [h1, h2]
    simp [renderRecognitionFire, applyWordHighlights, matchWords, matchStep,
      advanceCursor, isCompleted, skipFold]
  · rw [h1, h2]
    simp [renderRecognitionFire, applyWordHighlights, matchWords, matchStep,
      advanceCursor, isCompleted, skipFold]

end Speech
